import Mathlib

/-!
Verification of the route staticness classifier of the `1jm` toolchain.

The classifier lives in the analyzer module (`analyzeRoutes` and its helpers
`analyzeRouter`, `analyzeHandler`, `analyzeFunctionBody`, `analyzeReturn`,
`isDeeplyStatic`, `getDeclaration`).  We give a shallow embedding: TypeScript
expressions, statements and function bodies become inductive types, the
TypeScript type checker becomes an oracle (`Checker`), file-system/IO
outcomes become explicit input data, and the possibly non-terminating
recursions of the source (router mounts, identifier alias chains) become
fuel-indexed functions where `none` means the recursion did not complete
within the given fuel.
-/

/-! ### String helpers

`strIncludes s pat` models JavaScript `s.includes(pat)` (substring test);
`strStarts s pat` models `s.startsWith(pat)`; `toUpperStr` models
`String.prototype.toUpperCase` on the ASCII method names it is applied to. -/

def listStarts : List Char → List Char → Bool
  | [], _ => true
  | _ :: _, [] => false
  | a :: as, b :: bs => a = b && listStarts as bs

def listHasSub (pat : List Char) : List Char → Bool
  | [] => pat.isEmpty
  | b :: bs => listStarts pat (b :: bs) || listHasSub pat bs

def strIncludes (s pat : String) : Bool := listHasSub pat.data s.data

def strStarts (s pat : String) : Bool := listStarts pat.data s.data

def toUpperStr (s : String) : String := ⟨s.data.map Char.toUpper⟩

/-! ### Slash collapsing

`collapseStr` models `str.replace(/\/+/g, "/")`: every maximal run of `/`
characters is replaced by a single `/`.  `slashStep` processes one character
against the already-collapsed tail, dropping a `/` that is immediately
followed by another `/`. -/

def slashStep (c : Char) (acc : List Char) : List Char :=
  if c = '/' ∧ acc.head? = some '/' then acc else c :: acc

def collapseSlashes (l : List Char) : List Char := l.foldr slashStep []

def collapseStr (s : String) : String := ⟨collapseSlashes s.data⟩

/-! ### Abstract syntax

The fragment of TypeScript syntax the analyzer inspects.  `numLit` keeps the
literal's source text (the analyzer never reads the numeric value).
`tmplNoSub` is a template literal without interpolation, `tmplInterp` one
with interpolated parts.  `Expr.fn` covers arrow functions and function
expressions (the analyzer treats them alike).  `Stmt` covers the statement
shapes the analyzer distinguishes inside a function body: return statements,
variable declarations and expression statements. -/

inductive BindPat where
  | id (name : String)
  | obj (elems : List (Option String × String))
  deriving Repr, DecidableEq

mutual
inductive Expr where
  | strLit (s : String)
  | numLit (text : String)
  | boolLit (b : Bool)
  | nullLit
  | tmplNoSub (s : String)
  | tmplInterp (head : String) (parts : List Expr)
  | arrayLit (elems : List Expr)
  | objLit (props : List ObjProp)
  | ident (name : String)
  | propAccess (base : Expr) (name : String)
  | call (fn : Expr) (args : List Expr)
  | fn (params : List BindPat) (body : FnBody)
  deriving Repr

inductive ObjProp where
  | assign (key : String) (value : Expr)
  | computed (key : Expr) (value : Expr)
  | shorthand (name : String)
  | spread (e : Expr)
  | methodProp (name : String)
  deriving Repr

inductive FnBody where
  | expr (e : Expr)
  | block (stmts : List Stmt)
  deriving Repr

inductive Stmt where
  | ret (e : Option Expr)
  | decl (isConst : Bool) (pat : BindPat) (init : Option Expr)
  | exprStmt (e : Expr)
  deriving Repr
end

/-! ### Printing

The analyzer's "global impurity" and "middleware" scans operate on
`node.getText()`, the source text of a function, via `String.includes`.
`printExpr` renders our syntax back to text so those scans can be modelled
faithfully (in particular they also fire on occurrences inside string
literals, as the source's text scan does). -/

def printPat : BindPat → String
  | .id n => n
  | .obj elems =>
      "\x7b " ++
      String.intercalate ", "
        (elems.map (fun pe =>
          match pe.1 with
          | none => pe.2
          | some p => p ++ ": " ++ pe.2)) ++
      " \x7d"

mutual
def printExpr : Expr → String
  | .strLit s => "\"" ++ s ++ "\""
  | .numLit t => t
  | .boolLit b => if b then "true" else "false"
  | .nullLit => "null"
  | .tmplNoSub s => "`" ++ s ++ "`"
  | .tmplInterp h ps => "`" ++ h ++ "\x24\x7b" ++ printExprList ps ++ "\x7d`"
  | .arrayLit es => "[" ++ printExprList es ++ "]"
  | .objLit ps => "\x7b " ++ printProps ps ++ " \x7d"
  | .ident n => n
  | .propAccess b n => printExpr b ++ "." ++ n
  | .call f args => printExpr f ++ "(" ++ printExprList args ++ ")"
  | .fn params body =>
      "(" ++ String.intercalate ", " (params.map printPat) ++ ") => " ++ printBody body

def printExprList : List Expr → String
  | [] => ""
  | [e] => printExpr e
  | e :: es => printExpr e ++ ", " ++ printExprList es

def printProps : List ObjProp → String
  | [] => ""
  | [p] => printProp p
  | p :: ps => printProp p ++ ", " ++ printProps ps

def printProp : ObjProp → String
  | .assign k v => k ++ ": " ++ printExpr v
  | .computed k v => "[" ++ printExpr k ++ "]: " ++ printExpr v
  | .shorthand n => n
  | .spread e => "..." ++ printExpr e
  | .methodProp n => n ++ "() \x7b\x7d"

def printBody : FnBody → String
  | .expr e => printExpr e
  | .block ss => "\x7b " ++ printStmts ss ++ "\x7d"

def printStmts : List Stmt → String
  | [] => ""
  | s :: ss => printStmt s ++ " " ++ printStmts ss

def printStmt : Stmt → String
  | .ret none => "return;"
  | .ret (some e) => "return " ++ printExpr e ++ ";"
  | .decl ic pat init =>
      (if ic then "const " else "let ") ++ printPat pat ++
      (match init with
       | none => ""
       | some e => " = " ++ printExpr e) ++ ";"
  | .exprStmt e => printExpr e ++ ";"
end

/-- Source text of a function with the given parameters and body, as used by
the analyzer's `func.getText()` scans. -/
def printFn (params : List BindPat) (body : FnBody) : String :=
  printExpr (.fn params body)

/-! ### The type-checker oracle

`getDeclaration` in the source maps a symbol (following one alias level) to
its declaration node.  We model the composite
`checker.getSymbolAtLocation` + `getDeclaration` as an oracle: `lookup`
resolves an identifier, `lookupChain` resolves a property-access chain
`a.b.c` (given as `["a","b","c"]`), which is how the checker is consulted in
`isDeeplyStatic`'s property-access case.  `LookupRes.noSymbol` models a
missing symbol, `LookupRes.noDecl` a symbol without declaration. -/

inductive Decl where
  | varDecl (isConst : Bool) (init : Option Expr)
  | funcDecl (params : List BindPat) (body : FnBody)
  | propAssignDecl (init : Expr)
  | otherDecl
  deriving Repr

inductive LookupRes where
  | noSymbol
  | noDecl
  | found (d : Decl)
  deriving Repr

structure Checker where
  lookup : String → LookupRes
  lookupChain : List String → LookupRes

/-- The identifier chain of a property access (`a.b.c` ↦ `["a","b","c"]`);
`none` when the base is not an identifier chain (the checker oracle is then
not consulted, matching a symbol-less node). -/
def chainOf : Expr → Option (List String)
  | .ident n => some [n]
  | .propAccess b n =>
      match chainOf b with
      | some l => some (l ++ [n])
      | none => none
  | _ => none

/-- Resolution of the property access `base.nm` through the checker. -/
def resolveAccess (ck : Checker) (base : Expr) (nm : String) : LookupRes :=
  match chainOf base with
  | some l => ck.lookupChain (l ++ [nm])
  | none => .noSymbol

/-! ### The deep static value evaluator

`isDeeplyStatic(node, checker, depth)` of the source recurses with
`depth + 1` in every recursive call and answers `false` as soon as
`depth > 10`.  We carry the remaining budget `11 - depth` instead, so the
recursion is structural: budget `0` is the `depth > 10` cutoff, and a
top-level call (source default `depth = 0`) uses budget `11`. -/

def isDeeplyStatic (ck : Checker) : Nat → Expr → Bool
  | 0, _ => false
  | b + 1, node =>
    match node with
    | .strLit _ => true
    | .numLit _ => true
    | .boolLit _ => true
    | .nullLit => true
    | .tmplNoSub _ => true
    | .arrayLit es => es.all (fun e => isDeeplyStatic ck b e)
    | .objLit ps =>
        ps.all (fun p =>
          match p with
          | .spread e => isDeeplyStatic ck b e
          | .computed k v => isDeeplyStatic ck b k && isDeeplyStatic ck b v
          | .assign _ v => isDeeplyStatic ck b v
          | .shorthand n =>
              match ck.lookup n with
              | .found (.varDecl _ (some init)) => isDeeplyStatic ck b init
              | _ => false
          | .methodProp _ => false)
    | .propAccess base nm =>
        match resolveAccess ck base nm with
        | .found (.propAssignDecl init) => isDeeplyStatic ck b init
        | .found (.varDecl _ (some init)) => isDeeplyStatic ck b init
        | _ => false
    | .ident n =>
        if n = "undefined" then true
        else
          match ck.lookup n with
          | .found (.varDecl isConst (some init)) =>
              if isConst then isDeeplyStatic ck b init else false
          | _ => false
    | .tmplInterp _ _ => false
    | .call _ _ => false
    | .fn _ _ => false

/-! ### Context-usage scan

`checkContextUsage` walks every node of the handler body (including nested
functions): a property access `c.p` with `c` the context parameter and `p`
outside the allow-list is impure, and a variable declaration whose
initializer is the bare context identifier is impure unless it is an object
destructuring whose fields are all allowed.  The first impurity found in
pre-order wins; inside one destructuring declaration the source overwrites
the reason per disallowed field, so the last disallowed field's reason is
kept (`destructCheck`). -/

def allowedCtx : List String :=
  ["json", "text", "html", "body", "status", "header", "set", "var", "render"]

def oFirst (a b : Option String) : Option String :=
  match a with
  | some r => some r
  | none => b

def destructCheck : List (Option String × String) → Option String
  | [] => none
  | el :: rest =>
    match destructCheck rest with
    | some r => some r
    | none =>
        let pn := el.1.getD el.2
        if allowedCtx.contains pn then none
        else some ("Uses dynamic context: c." ++ pn)

mutual
def ctxExpr (cn : String) : Expr → Option String
  | .propAccess b p =>
    match b with
    | .ident bn =>
        if bn = cn && !(allowedCtx.contains p) then
          some ("Uses dynamic context: c." ++ p)
        else none
    | _ => ctxExpr cn b
  | .call f args => oFirst (ctxExpr cn f) (ctxExprList cn args)
  | .arrayLit es => ctxExprList cn es
  | .objLit ps => ctxProps cn ps
  | .tmplInterp _ ps => ctxExprList cn ps
  | .fn _ body => ctxBody cn body
  | _ => none

def ctxExprList (cn : String) : List Expr → Option String
  | [] => none
  | e :: es => oFirst (ctxExpr cn e) (ctxExprList cn es)

def ctxProp (cn : String) : ObjProp → Option String
  | .assign _ v => ctxExpr cn v
  | .computed k v => oFirst (ctxExpr cn k) (ctxExpr cn v)
  | .shorthand _ => none
  | .spread e => ctxExpr cn e
  | .methodProp _ => none

def ctxProps (cn : String) : List ObjProp → Option String
  | [] => none
  | p :: ps => oFirst (ctxProp cn p) (ctxProps cn ps)

def ctxStmt (cn : String) : Stmt → Option String
  | .ret none => none
  | .ret (some e) => ctxExpr cn e
  | .exprStmt e => ctxExpr cn e
  | .decl _ pat init =>
    match init with
    | some (.ident iname) =>
        if iname = cn then
          match pat with
          | .obj elems => destructCheck elems
          | .id _ => some "Aliasing context object"
        else none
    | some e => ctxExpr cn e
    | none => none

def ctxStmts (cn : String) : List Stmt → Option String
  | [] => none
  | s :: ss => oFirst (ctxStmt cn s) (ctxStmts cn ss)

def ctxBody (cn : String) : FnBody → Option String
  | .expr e => ctxExpr cn e
  | .block ss => ctxStmts cn ss
end

/-! ### Return analysis and handler classification -/

structure HandlerRes where
  isStatic : Bool
  reason : Option String
  deriving Repr, DecidableEq

/-- `analyzeReturn`: a returned expression is static only if it is a call
`<recv>.json/text/html(arg)` whose first argument (if any) passes the deep
static evaluator. -/
def analyzeReturn (ck : Checker) (e : Expr) : HandlerRes :=
  match e with
  | .call f args =>
    match f with
    | .propAccess _ m =>
        if ["json", "text", "html"].contains m then
          match args.head? with
          | none => ⟨true, none⟩
          | some a =>
              if isDeeplyStatic ck 11 a then ⟨true, none⟩
              else ⟨false, some "Response body has variables"⟩
        else ⟨false, some "Complex return value"⟩
    | _ => ⟨false, some "Complex return value"⟩
  | _ => ⟨false, some "Complex return value"⟩

/-- `findReturns`: scan the statements of a block body in order.  Only
return statements with an expression count (`hasReturn`); once a non-static
return is found its reason is kept and the remaining statements are skipped.
Nested function literals are not statement-level nodes here, matching the
source's refusal to descend into function-like nodes. -/
def findReturns (ck : Checker) : List Stmt → Bool → Option String → (Bool × Option String)
  | [], hr, fr => (hr, fr)
  | s :: rest, hr, fr =>
    match fr with
    | some r => (hr, some r)
    | none =>
      match s with
      | .ret (some e) =>
          let res := analyzeReturn ck e
          findReturns ck rest true (if res.isStatic then none else res.reason)
      | _ => findReturns ck rest hr none

def scanDynGlobal (t : String) : Bool :=
  strIncludes t "Date.now()" || strIncludes t "Math." ||
  strIncludes t "process.env" || strIncludes t "bun.env"

/-- `analyzeFunctionBody`: text scan for dynamic globals and `next()`, then
the context-usage scan (only when the first parameter is a plain
identifier), then return analysis. -/
def analyzeFunctionBody (ck : Checker) (params : List BindPat) (body : FnBody) : HandlerRes :=
  let text := printFn params body
  if scanDynGlobal text then ⟨false, some "Uses Dynamic Global"⟩
  else if strIncludes text "next()" then ⟨false, some "Middleware chain (calls next)"⟩
  else
    let retRes : HandlerRes :=
      match body with
      | .expr e => analyzeReturn ck e
      | .block ss =>
        match findReturns ck ss false none with
        | (false, _) => ⟨false, some "No return"⟩
        | (true, some r) => ⟨false, some r⟩
        | (true, none) => ⟨true, none⟩
    match params.head? with
    | some (.id cn) =>
      match ctxBody cn body with
      | some r => ⟨false, some r⟩
      | none => retRes
    | _ => retRes

/-- `analyzeHandler`: resolve a bare identifier through the checker (an
alias chain of `const h = g` declarations can loop in the source, hence the
fuel; `none` means the resolution chain did not bottom out). -/
def analyzeHandler (ck : Checker) : Nat → Expr → Option HandlerRes
  | 0, _ => none
  | fuel + 1, node =>
    match node with
    | .ident n =>
      match ck.lookup n with
      | .noSymbol => some ⟨false, some "Unresolved Identifier"⟩
      | .noDecl => some ⟨false, some "No definition found"⟩
      | .found d =>
        match d with
        | .varDecl _ (some init) => analyzeHandler ck fuel init
        | .funcDecl ps body => some (analyzeFunctionBody ck ps body)
        | _ => some ⟨false, some "External function"⟩
    | .fn ps body => some (analyzeFunctionBody ck ps body)
    | _ => some ⟨false, some "Unknown Handler"⟩

/-! ### Route classification and the router walk -/

inductive RouteType where
  | STATIC
  | DYNAMIC
  deriving Repr, DecidableEq

structure RouteAnalysis where
  method : String
  path : String
  type : RouteType
  reason : Option String
  deriving Repr, DecidableEq

def httpVerbs : List String := ["get", "post", "put", "delete", "patch"]

/-- The `for (let i = 1; i < args.length; i++)` loop over a registration's
handler arguments: `i` is the argument index of the head of the remaining
list, `total` is `args.length`.  Result `some none` means all handlers were
static, `some (some r)` the first dynamic handler's (possibly
index-qualified) reason, `none` that `analyzeHandler` ran out of fuel. -/
def classifyHandlers (ck : Checker) (fuel total : Nat) : Nat → List Expr → Option (Option String)
  | _, [] => some none
  | i, h :: rest =>
    match analyzeHandler ck fuel h with
    | none => none
    | some r =>
        if r.isStatic then classifyHandlers ck fuel total (i + 1) rest
        else
          some (some
            (if i < total - 1 then
              "Middleware [Arg " ++ toString i ++ "] is dynamic: " ++ r.reason.getD "undefined"
            else r.reason.getD "Unknown"))

/-- Entries emitted for one route-registration call `recv.<verb>(args)`:
nothing for an empty argument list or a non-literal path; a parameterized or
wildcard full path is immediately DYNAMIC; otherwise the handler loop
decides. -/
def routeEntriesFor (ck : Checker) (fuel : Nat) (pre m : String) (args : List Expr) :
    Option (List RouteAnalysis) :=
  match args with
  | [] => some []
  | pathNode :: handlers =>
    match pathNode with
    | .strLit p =>
        let fullPath := collapseStr (pre ++ p)
        if strIncludes fullPath ":" || strIncludes fullPath "*" then
          some [⟨toUpperStr m, fullPath, .DYNAMIC, some "Route has params/wildcards"⟩]
        else
          match classifyHandlers ck fuel args.length 1 handlers with
          | none => none
          | some none => some [⟨toUpperStr m, fullPath, .STATIC, none⟩]
          | some (some r) => some [⟨toUpperStr m, fullPath, .DYNAMIC, some r⟩]
    | _ => some []

/-- One method-call usage of an identifier as receiver:
`recv.method(args)`. -/
structure CallSite where
  recv : String
  method : String
  args : List Expr
  deriving Repr

/-- One pass of `analyzeRouter(routerVarName, routePrefix)` over the usage
list; `rec` is the recursive walk applied to a mounted sub-router. -/
def goSites (rec : String → String → Option (List RouteAnalysis)) (ck : Checker)
    (fuel : Nat) (name pre : String) : List CallSite → Option (List RouteAnalysis)
  | [] => some []
  | cs :: rest =>
    let tail := goSites rec ck fuel name pre rest
    if cs.recv = name then
      if httpVerbs.contains cs.method then
        match routeEntriesFor ck fuel pre cs.method cs.args with
        | none => none
        | some es =>
          match tail with
          | none => none
          | some es2 => some (es ++ es2)
      else if cs.method = "route" then
        match cs.args with
        | p :: sub :: _ =>
          match p, sub with
          | .strLit ps, .ident sn =>
            match rec sn (collapseStr (pre ++ ps)) with
            | none => none
            | some es =>
              match tail with
              | none => none
              | some es2 => some (es ++ es2)
          | _, _ => tail
        | _ => tail
      else tail
    else tail

/-- `analyzeRouter`: the source recursion carries no depth bound and no
visited set; each level rescans the whole usage list.  The fuel bounds the
mount-recursion depth; `none` models the recursion failing to terminate
within it. -/
def walkFuel (ck : Checker) (sites : List CallSite) : Nat → String → String →
    Option (List RouteAnalysis)
  | 0, _, _ => none
  | n + 1, name, pre =>
      goSites (fun nm p2 => walkFuel ck sites n nm p2) ck n name pre sites

/-! ### Sorting

The source returns `results.sort((a, b) => a.path.localeCompare(b.path))`.
We model `localeCompare` as lexicographic comparison of the code points
(which agrees with locale collation on the lowercase-ASCII paths routes
use), and the stable JavaScript sort as a stable insertion sort keyed on the
same comparator. -/

def pathCharsLe : List Char → List Char → Bool
  | [], _ => true
  | _ :: _, [] => false
  | a :: as, b :: bs =>
      if a.val.toNat = b.val.toNat then pathCharsLe as bs
      else decide (a.val.toNat < b.val.toNat)

def routeRel (a b : RouteAnalysis) : Prop := pathCharsLe a.path.data b.path.data = true

instance : DecidableRel routeRel := fun a b =>
  inferInstanceAs (Decidable (pathCharsLe a.path.data b.path.data = true))

def sortRoutes (l : List RouteAnalysis) : List RouteAnalysis :=
  List.insertionSort routeRel l

/-! ### The top-level analyzer

Input data for one invocation: whether `server/index.ts` exists, the parsed
entry source file (its receiver-method-call usages, default-export
identifier, whether the identifier `app` occurs, and the first variable
initialized by `new ...Hono...(...)`), and the checker oracle. -/

structure SourceFileModel where
  sites : List CallSite
  defaultExportIdent : Option String
  hasAppIdent : Bool
  firstHonoVar : Option String

structure AnalyzeInput where
  entryExists : Bool
  file : Option SourceFileModel
  checker : Checker

inductive LogLevel where
  | warn
  | logError
  deriving Repr, DecidableEq

/-- Root-router heuristics, in source order: the identifier of a default
export; else the name `app` when it occurs; else the first `new ...Hono...`
variable. -/
def rootRouterName (sf : SourceFileModel) : Option String :=
  match sf.defaultExportIdent with
  | some n => some n
  | none => if sf.hasAppIdent then some "app" else sf.firstHonoVar

def analyzeWarnMsg : String := "skipped: Could not find server/index.ts"

/-- `analyzeRoutes(projectCwd)`: missing entry file yields an empty report
with a warning; otherwise walk from the root router with the empty path
accumulator and sort the entries by path.  The outer `none` means the
unbounded mount recursion failed to complete within `fuel`. -/
def analyzeRoutes (fuel : Nat) (inp : AnalyzeInput) :
    Option (List RouteAnalysis × List (LogLevel × String)) :=
  if inp.entryExists = false then some ([], [(.warn, analyzeWarnMsg)])
  else
    match inp.file with
    | none => some ([], [])
    | some sf =>
      match rootRouterName sf with
      | none => some ([], [])
      | some root =>
        match walkFuel inp.checker sf.sites fuel root "" with
        | none => none
        | some es => some (sortRoutes es, [])

/-! ### The ts-morph variant's load phase

The older analyzer variant wraps source loading
(`project.addSourceFileAtPath` / `resolveSourceFileDependencies`) in
`try { ... } catch (e) { console.error(...); return []; }`.  We model the
load outcome as input data and the absence of an escaping exception by the
`Except`-typed result: the catch block turns a load failure into a normal
`.ok` return carrying an empty report and an error-level log line.  The walk
phase of that variant is abstracted as the `walkResult` field, sorted on
success like the source's final `results.sort`. -/

namespace TM

structure Input where
  entryExists : Bool
  load : Except String Unit
  walkResult : List RouteAnalysis

def loadErrorMsg : String := "Failed to load source files"

def analyzeRoutes (inp : Input) :
    Except String (List RouteAnalysis × List (LogLevel × String)) :=
  if inp.entryExists = false then .ok ([], [(.warn, analyzeWarnMsg)])
  else
    match inp.load with
    | .error _ => .ok ([], [(.logError, loadErrorMsg)])
    | .ok _ => .ok (sortRoutes inp.walkResult, [])

end TM

/-! ### Auxiliary predicates over the model -/

/-- A call site whose first argument, when it is a string literal, starts
with a slash (used to state the conditional fullPath invariant). -/
def siteSlashOk (cs : CallSite) : Bool :=
  match cs.args.head? with
  | some (.strLit s) => strStarts s "/"
  | _ => true

/-- The handler resolves (within `fuel`) and is classified static. -/
def staticRes (ck : Checker) (fuel : Nat) (h : Expr) : Prop :=
  ∃ r, analyzeHandler ck fuel h = some r ∧ r.isStatic = true

def isStrLitB : Expr → Bool
  | .strLit _ => true
  | _ => false

instance : IsTotal RouteAnalysis routeRel :=
  ⟨fun x y => by
    show pathCharsLe x.path.data y.path.data = true ∨ pathCharsLe y.path.data x.path.data = true
    generalize x.path.data = a
    generalize y.path.data = b
    induction a generalizing b with
    | nil => left; rfl
    | cons c cs ih =>
      cases b with
      | nil => right; rfl
      | cons d ds =>
        by_cases h : c.val.toNat = d.val.toNat
        · have h2 : d.val.toNat = c.val.toNat := h.symm
          rcases ih ds with hl | hr
          · left; unfold pathCharsLe; rw [if_pos h]; exact hl
          · right; unfold pathCharsLe; rw [if_pos h2]; exact hr
        · have h2 : ¬ d.val.toNat = c.val.toNat := fun e => h e.symm
          rcases Nat.lt_or_ge c.val.toNat d.val.toNat with hlt | hge
          · left; unfold pathCharsLe; rw [if_neg h]; exact decide_eq_true hlt
          · right; unfold pathCharsLe; rw [if_neg h2]
            exact decide_eq_true (Nat.lt_of_le_of_ne hge h2)⟩

instance : IsTrans RouteAnalysis routeRel :=
  ⟨fun x y z hxy hyz => by
    revert hxy hyz
    show pathCharsLe x.path.data y.path.data = true →
      pathCharsLe y.path.data z.path.data = true →
      pathCharsLe x.path.data z.path.data = true
    generalize x.path.data = a
    generalize y.path.data = b
    generalize z.path.data = c
    intro hab hbc
    induction a generalizing b c with
    | nil => rfl
    | cons u us ih =>
      cases b with
      | nil => exact absurd hab (by simp [pathCharsLe])
      | cons v vs =>
        cases c with
        | nil => exact absurd hbc (by simp [pathCharsLe])
        | cons w ws =>
          unfold pathCharsLe at hab hbc ⊢
          by_cases huv : u.val.toNat = v.val.toNat
          · rw [if_pos huv] at hab
            by_cases hvw : v.val.toNat = w.val.toNat
            · rw [if_pos hvw] at hbc
              rw [if_pos (huv.trans hvw)]
              exact ih vs ws hab hbc
            · rw [if_neg hvw] at hbc
              have hvw2 : v.val.toNat < w.val.toNat := of_decide_eq_true hbc
              have huw : u.val.toNat < w.val.toNat := huv ▸ hvw2
              rw [if_neg (Nat.ne_of_lt huw)]
              exact decide_eq_true huw
          · rw [if_neg huv] at hab
            have huv2 : u.val.toNat < v.val.toNat := of_decide_eq_true hab
            by_cases hvw : v.val.toNat = w.val.toNat
            · have huw : u.val.toNat < w.val.toNat := hvw ▸ huv2
              rw [if_neg (Nat.ne_of_lt huw)]
              exact decide_eq_true huw
            · rw [if_neg hvw] at hbc
              have hvw2 : v.val.toNat < w.val.toNat := of_decide_eq_true hbc
              have huw := Nat.lt_trans huv2 hvw2
              rw [if_neg (Nat.ne_of_lt huw)]
              exact decide_eq_true huw⟩

/-! ### Concrete test programs

Inputs mirroring the source trees of the repository's own analyzer test
suite (one `server/index.ts` per program, wrapped as
`const app = new Hono(); ...; export default app`). -/

def ckEmpty : Checker := ⟨fun _ => .noSymbol, fun _ => .noSymbol⟩

def arrowCJsonEmptyObj : Expr :=
  .fn [.id "c"] (.expr (.call (.propAccess (.ident "c") "json") [.objLit []]))

/-- `const admin = new Hono(); admin.get('/dash', (c) => c.json({}));
app.route('/admin', admin);` -/
def adminSF : SourceFileModel :=
  ⟨[⟨"admin", "get", [.strLit "/dash", arrowCJsonEmptyObj]⟩,
    ⟨"app", "route", [.strLit "/admin", .ident "admin"]⟩],
   some "app", true, none⟩

def adminInput : AnalyzeInput := ⟨true, some adminSF, ckEmpty⟩

/-- `users.get('/list', (c) => c.json([])); v1.route('/users', users);
app.route('/api/v1', v1);` -/
def nestedSF : SourceFileModel :=
  ⟨[⟨"users", "get",
      [.strLit "/list",
       .fn [.id "c"] (.expr (.call (.propAccess (.ident "c") "json") [.arrayLit []]))]⟩,
    ⟨"v1", "route", [.strLit "/users", .ident "users"]⟩,
    ⟨"app", "route", [.strLit "/api/v1", .ident "v1"]⟩],
   some "app", true, none⟩

def nestedInput : AnalyzeInput := ⟨true, some nestedSF, ckEmpty⟩

/-- `({ req }) => box.json({ ok: true })` — the context object is
destructured directly in the parameter list. -/
def destructParamHandler : Expr :=
  .fn [.obj [(none, "req")]]
    (.expr (.call (.propAccess (.ident "box") "json") [.objLit [.assign "ok" (.boolLit true)]]))

/-- `app.get('/x', ({ req }) => box.json({ ok: true }));` -/
def destructParamInput : AnalyzeInput :=
  ⟨true, some ⟨[⟨"app", "get", [.strLit "/x", destructParamHandler]⟩], some "app", true, none⟩,
   ckEmpty⟩

/-- `(c) => { const { req } = c; return box.json({ ok: true }); }` — the
semantically identical handler destructuring the context in the body. -/
def destructBodyHandler : Expr :=
  .fn [.id "c"]
    (.block [.decl true (.obj [(none, "req")]) (some (.ident "c")),
             .ret (some (.call (.propAccess (.ident "box") "json")
               [.objLit [.assign "ok" (.boolLit true)]]))])

def destructBodyInput : AnalyzeInput :=
  ⟨true, some ⟨[⟨"app", "get", [.strLit "/x", destructBodyHandler]⟩], some "app", true, none⟩,
   ckEmpty⟩

/-- Checker for `const DATA = { version: 1 };`. -/
def ckConst : Checker :=
  ⟨fun n =>
    if n = "DATA" then .found (.varDecl true (some (.objLit [.assign "version" (.numLit "1")])))
    else .noSymbol,
   fun _ => .noSymbol⟩

/-- Checker for `let DATA = { version: 1 };`. -/
def ckLet : Checker :=
  ⟨fun n =>
    if n = "DATA" then .found (.varDecl false (some (.objLit [.assign "version" (.numLit "1")])))
    else .noSymbol,
   fun _ => .noSymbol⟩

def verHandler : Expr :=
  .fn [.id "c"] (.expr (.call (.propAccess (.ident "c") "json") [.ident "DATA"]))

def verSF : SourceFileModel :=
  ⟨[⟨"app", "get", [.strLit "/ver", verHandler]⟩], some "app", true, none⟩

def verConstInput : AnalyzeInput := ⟨true, some verSF, ckConst⟩

def verLetInput : AnalyzeInput := ⟨true, some verSF, ckLet⟩

/-- `(c, next) => next()` — a delegating middleware. -/
def mwNext : Expr := .fn [.id "c", .id "next"] (.expr (.call (.ident "next") []))

/-- `app.get('x', h)` registered twice: a duplicate pair and a path without
a leading slash. -/
def dupSF : SourceFileModel :=
  ⟨[⟨"app", "get", [.strLit "x", arrowCJsonEmptyObj]⟩,
    ⟨"app", "get", [.strLit "x", arrowCJsonEmptyObj]⟩], some "app", true, none⟩

def dupInput : AnalyzeInput := ⟨true, some dupSF, ckEmpty⟩

def xEntry : RouteAnalysis := ⟨"GET", "x", .STATIC, none⟩

/-- `a.route('/x', b); b.route('/y', a);` — mutually mounted routers. -/
def cycSites : List CallSite :=
  [⟨"a", "route", [.strLit "/x", .ident "b"]⟩,
   ⟨"b", "route", [.strLit "/y", .ident "a"]⟩]

def cycInput : AnalyzeInput := ⟨true, some ⟨cycSites, some "a", true, none⟩, ckEmpty⟩

/-- One registration with a computed (template) path next to one with a
literal path. -/
def tmplSF : SourceFileModel :=
  ⟨[⟨"app", "get", [.tmplInterp "p " [.ident "v"], arrowCJsonEmptyObj]⟩,
    ⟨"app", "get", [.strLit "/lit", arrowCJsonEmptyObj]⟩], some "app", true, none⟩

def tmplInput : AnalyzeInput := ⟨true, some tmplSF, ckEmpty⟩

def chainEntry : RouteAnalysis :=
  ⟨"GET", "/chain", .DYNAMIC, some "Middleware [Arg 1] is dynamic: Middleware chain (calls next)"⟩

def tmFailInput : TM.Input := ⟨true, .error "SyntaxError", [⟨"GET", "/a", .STATIC, none⟩]⟩
/-! ### Properties of slash collapsing -/

theorem foldr_slashStep_head (c : Char) (t acc : List Char) :
    (List.foldr slashStep acc (c :: t)).head? = some c := by
  show (slashStep c (List.foldr slashStep acc t)).head? = some c
  unfold slashStep
  split
  · rename_i h
    rw [h.2, h.1]
  · rfl

theorem foldr_slashStep_collapse (a : List Char) (acc : List Char) :
    List.foldr slashStep acc (collapseSlashes a) = List.foldr slashStep acc a := by
  induction a generalizing acc with
  | nil => rfl
  | cons c t ih =>
    have hc : collapseSlashes (c :: t) = slashStep c (collapseSlashes t) := rfl
    have hr : List.foldr slashStep acc (c :: t) = slashStep c (List.foldr slashStep acc t) := rfl
    rw [hc, hr]
    by_cases h : c = '/' ∧ (collapseSlashes t).head? = some '/'
    · rw [show slashStep c (collapseSlashes t) = collapseSlashes t from by
        unfold slashStep; rw [if_pos h]]
      rw [ih]
      obtain ⟨d, t2, rfl⟩ : ∃ d t2, t = d :: t2 := by
        cases t with
        | nil => exact absurd h.2 (by simp [collapseSlashes])
        | cons d t2 => exact ⟨d, t2, rfl⟩
      have hd : d = '/' := by
        have hh : (collapseSlashes (d :: t2)).head? = some d :=
          foldr_slashStep_head d t2 ([] : List Char)
        rw [hh] at h
        exact Option.some_inj.mp h.2
      have hh2 : (List.foldr slashStep acc (d :: t2)).head? = some '/' := by
        rw [foldr_slashStep_head d t2 acc, hd]
      rw [show slashStep c (List.foldr slashStep acc (d :: t2)) =
          List.foldr slashStep acc (d :: t2) from by
        unfold slashStep; rw [if_pos ⟨h.1, hh2⟩]]
    · rw [show slashStep c (collapseSlashes t) = c :: collapseSlashes t from by
        unfold slashStep; rw [if_neg h]]
      have hstep : List.foldr slashStep acc (c :: collapseSlashes t) =
          slashStep c (List.foldr slashStep acc (collapseSlashes t)) := rfl
      rw [hstep, ih]

theorem collapseSlashes_append_left (a b : List Char) :
    collapseSlashes (collapseSlashes a ++ b) = collapseSlashes (a ++ b) := by
  unfold collapseSlashes
  rw [List.foldr_append, List.foldr_append]
  exact foldr_slashStep_collapse a _

theorem collapseStr_append_left (a b : String) :
    collapseStr (collapseStr a ++ b) = collapseStr (a ++ b) := by
  show String.mk (collapseSlashes ((collapseStr a).data ++ b.data)) =
    String.mk (collapseSlashes (a.data ++ b.data))
  rw [show (collapseStr a).data = collapseSlashes a.data from rfl,
      collapseSlashes_append_left]

theorem collapseStr_foldl (ps : List String) (q : String) :
    collapseStr ((ps.foldl (fun acc p => collapseStr (acc ++ p)) "") ++ q) =
    collapseStr (ps.foldl (fun acc p => acc ++ p) "" ++ q) := by
  have main : ∀ (l : List String) (a q : String),
      collapseStr ((l.foldl (fun acc p => collapseStr (acc ++ p)) (collapseStr a)) ++ q) =
      collapseStr (l.foldl (fun acc p => acc ++ p) a ++ q) := by
    intro l
    induction l with
    | nil => intro a q; simpa using collapseStr_append_left a q
    | cons p l ih =>
      intro a q
      rw [List.foldl, List.foldl, collapseStr_append_left]
      exact ih (a ++ p) q
  have h0 : (collapseStr "") = "" := rfl
  calc collapseStr ((ps.foldl (fun acc p => collapseStr (acc ++ p)) "") ++ q)
      = collapseStr ((ps.foldl (fun acc p => collapseStr (acc ++ p)) (collapseStr "")) ++ q) := by
        rw [h0]
    _ = collapseStr (ps.foldl (fun acc p => acc ++ p) "" ++ q) := main ps "" q

/-! ### Properties of the final sort -/

theorem sorted_sortRoutes (l : List RouteAnalysis) : List.Sorted routeRel (sortRoutes l) :=
  List.sorted_insertionSort routeRel l

theorem mem_sortRoutes {e : RouteAnalysis} {l : List RouteAnalysis} :
    e ∈ sortRoutes l ↔ e ∈ l :=
  (List.perm_insertionSort routeRel l).mem_iff

/-! ### Leading-slash preservation -/

theorem listStarts_slash {l : List Char} :
    listStarts ['/'] l = true ↔ l.head? = some '/' := by
  cases l with
  | nil => simp [listStarts]
  | cons c t =>
    show (('/' : Char) = c && listStarts [] t) = true ↔ _
    simp [listStarts, eq_comm]

theorem head_slash_shape {l : List Char} (h : l.head? = some '/') : ∃ t, l = '/' :: t := by
  cases l with
  | nil => simp at h
  | cons c t =>
    simp at h
    exact ⟨t, by rw [h]⟩

theorem strStarts_slash_iff {s : String} : strStarts s "/" = true ↔ s.data.head? = some '/' := by
  show listStarts "/".data s.data = true ↔ _
  rw [show "/".data = ['/'] from rfl]
  exact listStarts_slash

theorem collapseStr_startsSlash {pre p : String}
    (hpre : pre = "" ∨ strStarts pre "/" = true) (hp : strStarts p "/" = true) :
    strStarts (collapseStr (pre ++ p)) "/" = true := by
  rw [strStarts_slash_iff] at hp ⊢
  have hdata : (collapseStr (pre ++ p)).data = collapseSlashes (pre.data ++ p.data) := rfl
  rw [hdata]
  obtain ⟨t, ht⟩ := head_slash_shape hp
  rcases hpre with h0 | hs
  · rw [h0]
    show (collapseSlashes ([] ++ p.data)).head? = some '/'
    rw [List.nil_append, ht]
    exact foldr_slashStep_head '/' t []
  · rw [strStarts_slash_iff] at hs
    obtain ⟨t2, ht2⟩ := head_slash_shape hs
    rw [ht2, ht]
    show (collapseSlashes ('/' :: (t2 ++ '/' :: t))).head? = some '/'
    exact foldr_slashStep_head '/' (t2 ++ '/' :: t) []

/-! ### Properties of the handler-argument loop -/

theorem classify_of_all_static (ck : Checker) (fuel tot : Nat) :
    ∀ (hs : List Expr) (i : Nat), (∀ h ∈ hs, staticRes ck fuel h) →
      classifyHandlers ck fuel tot i hs = some none := by
  intro hs
  induction hs with
  | nil => intro i _; rfl
  | cons h rest ih =>
    intro i hall
    obtain ⟨r, hr, hst⟩ := hall h (List.mem_cons_self h rest)
    unfold classifyHandlers
    rw [hr]
    simp only [hst, if_true]
    exact ih (i + 1) (fun x hx => hall x (List.mem_cons_of_mem h hx))

theorem all_static_of_classify (ck : Checker) (fuel tot : Nat) :
    ∀ (hs : List Expr) (i : Nat), classifyHandlers ck fuel tot i hs = some none →
      ∀ h ∈ hs, staticRes ck fuel h := by
  intro hs
  induction hs with
  | nil => intro i _ h hmem; exact absurd hmem (List.not_mem_nil h)
  | cons h rest ih =>
    intro i hcl x hmem
    cases hah : analyzeHandler ck fuel h with
    | none => simp [classifyHandlers, hah] at hcl
    | some r =>
      by_cases hst : r.isStatic = true
      · simp only [classifyHandlers, hah, hst, if_true] at hcl
        rcases List.mem_cons.mp hmem with rfl | hmem2
        · exact ⟨r, hah, hst⟩
        · exact ih (i + 1) hcl x hmem2
      · simp [classifyHandlers, hah, hst] at hcl

theorem classify_first_dynamic (ck : Checker) (fuel tot : Nat) :
    ∀ (s : List Expr) (h : Expr) (t : List Expr) (r : HandlerRes) (i : Nat),
      (∀ x ∈ s, staticRes ck fuel x) →
      analyzeHandler ck fuel h = some r → r.isStatic = false →
      classifyHandlers ck fuel tot i (s ++ h :: t) = some (some
        (if i + s.length < tot - 1 then
          "Middleware [Arg " ++ toString (i + s.length) ++ "] is dynamic: " ++
            r.reason.getD "undefined"
        else r.reason.getD "Unknown")) := by
  intro s
  induction s with
  | nil =>
    intro h t r i _ hah hdyn
    unfold classifyHandlers
    rw [List.nil_append] at *
    show (match analyzeHandler ck fuel h with
      | none => none
      | some r =>
        if r.isStatic then classifyHandlers ck fuel tot (i + 1) t
        else some (some
          (if i < tot - 1 then
            "Middleware [Arg " ++ toString i ++ "] is dynamic: " ++ r.reason.getD "undefined"
          else r.reason.getD "Unknown"))) = _
    rw [hah]
    simp [hdyn]
  | cons x s ih =>
    intro h t r i hall hah hdyn
    obtain ⟨rx, hrx, hstx⟩ := hall x (List.mem_cons_self x s)
    show classifyHandlers ck fuel tot i (x :: (s ++ h :: t)) = _
    unfold classifyHandlers
    rw [hrx]
    simp only [hstx, if_true]
    rw [ih h t r (i + 1) (fun y hy => hall y (List.mem_cons_of_mem x hy)) hah hdyn]
    congr 2
    have : i + 1 + s.length = i + (x :: s).length := by
      simp [List.length_cons]; omega
    rw [this]

/-! ### Properties of one route registration -/

theorem routeEntriesFor_noMarkers (ck : Checker) (fuel : Nat) (pre m p : String)
    (hs : List Expr)
    (hm : (strIncludes (collapseStr (pre ++ p)) ":" ||
           strIncludes (collapseStr (pre ++ p)) "*") = false) :
    routeEntriesFor ck fuel pre m (.strLit p :: hs) =
      (match classifyHandlers ck fuel (hs.length + 1) 1 hs with
       | none => none
       | some none => some [⟨toUpperStr m, collapseStr (pre ++ p), .STATIC, none⟩]
       | some (some r) => some [⟨toUpperStr m, collapseStr (pre ++ p), .DYNAMIC, some r⟩]) := by
  unfold routeEntriesFor
  simp only [hm, Bool.false_eq_true, if_false, List.length_cons]

theorem routeEntriesFor_markers (ck : Checker) (fuel : Nat) (pre m p : String)
    (hs : List Expr)
    (hm : (strIncludes (collapseStr (pre ++ p)) ":" ||
           strIncludes (collapseStr (pre ++ p)) "*") = true) :
    routeEntriesFor ck fuel pre m (.strLit p :: hs) =
      some [⟨toUpperStr m, collapseStr (pre ++ p), .DYNAMIC, some "Route has params/wildcards"⟩] := by
  unfold routeEntriesFor
  simp only [hm, if_true]

/-! ### Properties of the router walk -/

theorem routeEntriesFor_slash (ck : Checker) (fuel : Nat) (pre m : String)
    (args : List Expr) (es : List RouteAnalysis)
    (hok : (match args.head? with
            | some (.strLit s) => strStarts s "/"
            | _ => true) = true)
    (hpre : pre = "" ∨ strStarts pre "/" = true)
    (heq : routeEntriesFor ck fuel pre m args = some es) :
    ∀ e ∈ es, strStarts e.path "/" = true := by
  cases args with
  | nil =>
    simp only [routeEntriesFor] at heq
    obtain rfl := Option.some_inj.mp heq
    intro e he; exact absurd he (List.not_mem_nil e)
  | cons pathNode handlers =>
    cases pathNode
    case strLit p =>
      have hp : strStarts p "/" = true := hok
      have hslash := collapseStr_startsSlash hpre hp
      by_cases hmk : (strIncludes (collapseStr (pre ++ p)) ":" ||
          strIncludes (collapseStr (pre ++ p)) "*") = true
      · rw [routeEntriesFor_markers ck fuel pre m p handlers hmk] at heq
        obtain rfl := Option.some_inj.mp heq
        intro e he
        simp only [List.mem_singleton] at he
        rw [he]
        exact hslash
      · have hmk2 : (strIncludes (collapseStr (pre ++ p)) ":" ||
            strIncludes (collapseStr (pre ++ p)) "*") = false := by
          simpa using hmk
        rw [routeEntriesFor_noMarkers ck fuel pre m p handlers hmk2] at heq
        cases hcl : classifyHandlers ck fuel (handlers.length + 1) 1 handlers with
        | none => rw [hcl] at heq; exact absurd heq (by simp)
        | some o =>
          cases o with
          | none =>
            rw [hcl] at heq
            obtain rfl := Option.some_inj.mp heq
            intro e he
            simp only [List.mem_singleton] at he
            rw [he]
            exact hslash
          | some r =>
            rw [hcl] at heq
            obtain rfl := Option.some_inj.mp heq
            intro e he
            simp only [List.mem_singleton] at he
            rw [he]
            exact hslash
    all_goals
      simp only [routeEntriesFor] at heq
      obtain rfl := Option.some_inj.mp heq
      intro e he
      exact absurd he (List.not_mem_nil e)

theorem goSites_slash (rec : String → String → Option (List RouteAnalysis)) (ck : Checker)
    (fuel : Nat) (name pre : String)
    (hpre : pre = "" ∨ strStarts pre "/" = true)
    (hrec : ∀ nm p2 r2, (p2 = "" ∨ strStarts p2 "/" = true) → rec nm p2 = some r2 →
        ∀ e ∈ r2, strStarts e.path "/" = true) :
    ∀ (sites2 : List CallSite), (∀ cs ∈ sites2, siteSlashOk cs = true) →
      ∀ res, goSites rec ck fuel name pre sites2 = some res →
        ∀ e ∈ res, strStarts e.path "/" = true := by
  intro sites2
  induction sites2 with
  | nil =>
    intro _ res hgo
    simp only [goSites] at hgo
    obtain rfl := Option.some_inj.mp hgo
    intro e he; exact absurd he (List.not_mem_nil e)
  | cons cs rest ih =>
    intro hsites res hgo
    have hcs : siteSlashOk cs = true := hsites cs (List.mem_cons_self cs rest)
    have hrest : ∀ cs2 ∈ rest, siteSlashOk cs2 = true :=
      fun cs2 h2 => hsites cs2 (List.mem_cons_of_mem cs h2)
    simp only [goSites] at hgo
    by_cases hr : cs.recv = name
    · rw [if_pos hr] at hgo
      by_cases hv : httpVerbs.contains cs.method = true
      · rw [if_pos hv] at hgo
        cases hre : routeEntriesFor ck fuel pre cs.method cs.args with
        | none => rw [hre] at hgo; exact absurd hgo (by simp)
        | some es1 =>
          rw [hre] at hgo
          cases ht : goSites rec ck fuel name pre rest with
          | none => rw [ht] at hgo; exact absurd hgo (by simp)
          | some es2 =>
            rw [ht] at hgo
            obtain rfl := Option.some_inj.mp hgo
            intro e he
            rcases List.mem_append.mp he with h1 | h2
            · exact routeEntriesFor_slash ck fuel pre cs.method cs.args es1 hcs hpre hre e h1
            · exact ih hrest es2 ht e h2
      · rw [if_neg hv] at hgo
        by_cases hrt : cs.method = "route"
        · rw [if_pos hrt] at hgo
          cases hargs : cs.args with
          | nil => rw [hargs] at hgo; exact ih hrest res hgo
          | cons p args2 =>
            cases args2 with
            | nil => rw [hargs] at hgo; exact ih hrest res hgo
            | cons sub rest2 =>
              rw [hargs] at hgo
              cases p with
              | strLit ps =>
                cases sub with
                | ident sn =>
                  have hps : strStarts ps "/" = true := by
                    have : siteSlashOk cs =
                        (match cs.args.head? with
                         | some (.strLit s) => strStarts s "/"
                         | _ => true) := rfl
                    rw [this, hargs] at hcs
                    exact hcs
                  have hpre2 : collapseStr (pre ++ ps) = "" ∨
                      strStarts (collapseStr (pre ++ ps)) "/" = true :=
                    Or.inr (collapseStr_startsSlash hpre hps)
                  have hgo2 : (match rec sn (collapseStr (pre ++ ps)) with
                      | none => none
                      | some es =>
                        match goSites rec ck fuel name pre rest with
                        | none => none
                        | some es2 => some (es ++ es2)) = some res := hgo
                  cases hrc : rec sn (collapseStr (pre ++ ps)) with
                  | none => rw [hrc] at hgo2; exact absurd hgo2 (by simp)
                  | some es1 =>
                    rw [hrc] at hgo2
                    cases ht : goSites rec ck fuel name pre rest with
                    | none => rw [ht] at hgo2; exact absurd hgo2 (by simp)
                    | some es2 =>
                      rw [ht] at hgo2
                      obtain rfl := Option.some_inj.mp hgo2
                      intro e he
                      rcases List.mem_append.mp he with h1 | h2
                      · exact hrec sn (collapseStr (pre ++ ps)) es1 hpre2 hrc e h1
                      · exact ih hrest es2 ht e h2
                | strLit s2 => exact ih hrest res hgo
                | numLit t2 => exact ih hrest res hgo
                | boolLit b2 => exact ih hrest res hgo
                | nullLit => exact ih hrest res hgo
                | tmplNoSub s2 => exact ih hrest res hgo
                | tmplInterp h2 p2 => exact ih hrest res hgo
                | arrayLit e2 => exact ih hrest res hgo
                | objLit p2 => exact ih hrest res hgo
                | propAccess b2 n2 => exact ih hrest res hgo
                | call f2 a2 => exact ih hrest res hgo
                | fn p2 b2 => exact ih hrest res hgo
              | numLit t2 => exact ih hrest res hgo
              | boolLit b2 => exact ih hrest res hgo
              | nullLit => exact ih hrest res hgo
              | tmplNoSub s2 => exact ih hrest res hgo
              | tmplInterp h2 p2 => exact ih hrest res hgo
              | arrayLit e2 => exact ih hrest res hgo
              | objLit p2 => exact ih hrest res hgo
              | ident n2 => exact ih hrest res hgo
              | propAccess b2 n2 => exact ih hrest res hgo
              | call f2 a2 => exact ih hrest res hgo
              | fn p2 b2 => exact ih hrest res hgo
        · rw [if_neg hrt] at hgo
          exact ih hrest res hgo
    · rw [if_neg hr] at hgo
      exact ih hrest res hgo

theorem walkFuel_slash (ck : Checker) (sites : List CallSite)
    (hsites : ∀ cs ∈ sites, siteSlashOk cs = true) :
    ∀ (fuel : Nat) (name pre : String) (res : List RouteAnalysis),
      (pre = "" ∨ strStarts pre "/" = true) →
      walkFuel ck sites fuel name pre = some res →
      ∀ e ∈ res, strStarts e.path "/" = true := by
  intro fuel
  induction fuel with
  | zero => intro name pre res _ hw; exact absurd hw (by simp [walkFuel])
  | succ n ih =>
    intro name pre res hpre hw
    have hw2 : goSites (fun nm p2 => walkFuel ck sites n nm p2) ck n name pre sites =
        some res := hw
    exact goSites_slash _ ck n name pre hpre
      (fun nm p2 r2 hp2 hr2 => ih nm p2 r2 hp2 hr2) sites hsites res hw2

-- C4 cycle machinery

theorem cyc_walk_none : ∀ (n : Nat) (pre : String),
    walkFuel ckEmpty cycSites n "a" pre = none ∧
    walkFuel ckEmpty cycSites n "b" pre = none := by
  intro n
  induction n with
  | zero => intro pre; exact ⟨rfl, rfl⟩
  | succ k ih =>
    intro pre
    constructor
    · show goSites (fun nm p2 => walkFuel ckEmpty cycSites k nm p2) ckEmpty k "a" pre
        cycSites = none
      have h1 : walkFuel ckEmpty cycSites k "b" (collapseStr (pre ++ "/x")) = none :=
        (ih (collapseStr (pre ++ "/x"))).2
      show (match walkFuel ckEmpty cycSites k "b" (collapseStr (pre ++ "/x")) with
        | none => none
        | some es =>
          match goSites (fun nm p2 => walkFuel ckEmpty cycSites k nm p2) ckEmpty k "a" pre
              [⟨"b", "route", [.strLit "/y", .ident "a"]⟩] with
          | none => none
          | some es2 => some (es ++ es2)) = none
      rw [h1]
    · show goSites (fun nm p2 => walkFuel ckEmpty cycSites k nm p2) ckEmpty k "b" pre
        cycSites = none
      have h1 : walkFuel ckEmpty cycSites k "a" (collapseStr (pre ++ "/y")) = none :=
        (ih (collapseStr (pre ++ "/y"))).1
      show (match walkFuel ckEmpty cycSites k "a" (collapseStr (pre ++ "/y")) with
        | none => none
        | some es =>
          match goSites (fun nm p2 => walkFuel ckEmpty cycSites k nm p2) ckEmpty k "b" pre
              ([] : List CallSite) with
          | none => none
          | some es2 => some (es ++ es2)) = none
      rw [h1]

/-! ### The claims -/

/-- Claim C1, evaluation at the failing input: a handler that destructures
the context object in its parameter list (`({ req }) => box.json({ ok: true })`)
is reported STATIC — the context-usage scan only runs when the first
parameter is a plain identifier — while the semantically identical handler
destructuring inside the body is reported DYNAMIC. -/
theorem claim_C1_eval :
    analyzeRoutes 10 destructParamInput = some ([⟨"GET", "/x", .STATIC, none⟩], []) ∧
    analyzeRoutes 10 destructBodyInput =
      some ([⟨"GET", "/x", .DYNAMIC, some "Uses dynamic context: c.req"⟩], []) :=
  ⟨rfl, rfl⟩

/-- Claim C2: a route registration whose literal path, after prefix
concatenation and slash collapsing, contains a `:` or `*` marker is emitted
as a single DYNAMIC entry with reason "Route has params/wildcards", and the
emitted entries do not depend on the handler arguments. -/
theorem claim_C2 (ck : Checker) (fuel : Nat) (pre m p : String) (hs hs2 : List Expr)
    (hmk : strIncludes (collapseStr (pre ++ p)) ":" = true ∨
           strIncludes (collapseStr (pre ++ p)) "*" = true) :
    routeEntriesFor ck fuel pre m (.strLit p :: hs) =
      some [⟨toUpperStr m, collapseStr (pre ++ p), .DYNAMIC, some "Route has params/wildcards"⟩] ∧
    routeEntriesFor ck fuel pre m (.strLit p :: hs) =
      routeEntriesFor ck fuel pre m (.strLit p :: hs2) := by
  have hb : (strIncludes (collapseStr (pre ++ p)) ":" ||
      strIncludes (collapseStr (pre ++ p)) "*") = true := by
    rcases hmk with h | h <;> simp [h]
  constructor
  · exact routeEntriesFor_markers ck fuel pre m p hs hb
  · rw [routeEntriesFor_markers ck fuel pre m p hs hb,
        routeEntriesFor_markers ck fuel pre m p hs2 hb]

/-- Concrete instantiation of the C2 theorem at the route `/user/:id`. -/
theorem claim_C2_witness :
    routeEntriesFor ckEmpty 5 "" "get" (.strLit "/user/:id" :: [arrowCJsonEmptyObj]) =
      some [⟨toUpperStr "get", collapseStr ("" ++ "/user/:id"), .DYNAMIC,
        some "Route has params/wildcards"⟩] ∧
    routeEntriesFor ckEmpty 5 "" "get" (.strLit "/user/:id" :: [arrowCJsonEmptyObj]) =
      routeEntriesFor ckEmpty 5 "" "get" (.strLit "/user/:id" :: []) :=
  claim_C2 ckEmpty 5 "" "get" "/user/:id" [arrowCJsonEmptyObj] [] (Or.inl rfl)

/-- Claim C3, counterexample: the bare identifier `undefined` is judged
deeply static although it does not resolve to any binding, contradicting the
claimed "static only if it resolves to a LOCKED binding". -/
theorem claim_C3_counterexample :
    isDeeplyStatic ckEmpty 11 (.ident "undefined") = true ∧
    ckEmpty.lookup "undefined" = .noSymbol :=
  ⟨rfl, rfl⟩

/-- Claim C3 (amended): apart from the special identifier `undefined`,
which is unconditionally judged static, a bare identifier within the depth
budget is judged static iff it resolves to a const binding whose initializer
is itself recursively static; end to end, `c.json(DATA)` is STATIC for
`const DATA = { version: 1 }` and DYNAMIC for the identical `let` binding. -/
theorem claim_C3_amended :
    (∀ (ck : Checker) (b : Nat) (n : String), n ≠ "undefined" →
      (isDeeplyStatic ck (b + 1) (.ident n) = true ↔
        ∃ e, ck.lookup n = .found (.varDecl true (some e)) ∧ isDeeplyStatic ck b e = true)) ∧
    analyzeRoutes 10 verConstInput = some ([⟨"GET", "/ver", .STATIC, none⟩], []) ∧
    analyzeRoutes 10 verLetInput =
      some ([⟨"GET", "/ver", .DYNAMIC, some "Response body has variables"⟩], []) := by
  refine ⟨?_, rfl, rfl⟩
  intro ck b n hne
  have hred : isDeeplyStatic ck (b + 1) (.ident n) =
      (if n = "undefined" then true
       else
         match ck.lookup n with
         | .found (.varDecl isConst (some init)) =>
             if isConst then isDeeplyStatic ck b init else false
         | _ => false) := rfl
  rw [hred, if_neg hne]
  cases hlk : ck.lookup n with
  | noSymbol => simp [hlk]
  | noDecl => simp [hlk]
  | found d =>
    cases d with
    | varDecl isConst init =>
      cases init with
      | none => simp
      | some e0 =>
        cases isConst with
        | true => simp
        | false => simp
    | funcDecl ps body => simp
    | propAssignDecl e0 => simp
    | otherDecl => simp

/-- Concrete instantiation of the amended C3 theorem at the binding `DATA`. -/
theorem claim_C3_amended_witness :
    isDeeplyStatic ckConst 11 (.ident "DATA") = true ↔
      ∃ e, ckConst.lookup "DATA" = .found (.varDecl true (some e)) ∧
        isDeeplyStatic ckConst 10 e = true :=
  claim_C3_amended.1 ckConst 10 "DATA" (by decide)

/-- Claim C4, evaluation at the failing input: the router walk has no
recursion-depth bound and no visited set, so on two mutually mounted routers
the analysis fails to complete for every fuel bound; the deep value
evaluator, by contrast, does answer `false` once its depth budget is
exhausted. -/
theorem claim_C4_eval :
    (∀ fuel : Nat, analyzeRoutes fuel cycInput = none) ∧
    (∀ (ck : Checker) (e : Expr), isDeeplyStatic ck 0 e = false) := by
  constructor
  · intro fuel
    have hw := (cyc_walk_none fuel "").1
    show (match walkFuel ckEmpty cycSites fuel "a" "" with
      | none => none
      | some es => some (sortRoutes es, [])) = none
    rw [hw]
  · intro ck e
    rfl

/-- Claim C5: collapsing after each prefix concatenation step equals
collapsing the plain concatenation once, so an emitted fullPath is the
slash-collapsed concatenation of all enclosing mount prefixes and the local
path; the `/admin` + `/dash` and `/api/v1` + `/users` + `/list` programs
produce exactly the composed paths, one entry each. -/
theorem claim_C5 :
    (∀ a b : String, collapseStr (collapseStr a ++ b) = collapseStr (a ++ b)) ∧
    (∀ (ps : List String) (q : String),
      collapseStr ((ps.foldl (fun acc p => collapseStr (acc ++ p)) "") ++ q) =
      collapseStr (ps.foldl (fun acc p => acc ++ p) "" ++ q)) ∧
    analyzeRoutes 10 adminInput = some ([⟨"GET", "/admin/dash", .STATIC, none⟩], []) ∧
    analyzeRoutes 10 nestedInput = some ([⟨"GET", "/api/v1/users/list", .STATIC, none⟩], []) :=
  ⟨collapseStr_append_left, collapseStr_foldl, rfl, rfl⟩

/-- Claim C6, counterexample: registering `app.get('x', h)` twice yields a
report with a duplicate (method, path) pair whose path does not start with
`/`. -/
theorem claim_C6_counterexample :
    analyzeRoutes 10 dupInput = some ([xEntry, xEntry], []) ∧
    strStarts xEntry.path "/" = false ∧
    ¬ List.Pairwise (fun a b : RouteAnalysis => ¬(a.method = b.method ∧ a.path = b.path))
      [xEntry, xEntry] := by
  refine ⟨rfl, rfl, fun h => ?_⟩
  exact (List.rel_of_pairwise_cons h (List.mem_cons_self xEntry [])) ⟨rfl, rfl⟩

/-- Claim C6 (amended): every report the analyzer returns is sorted by
path (lexicographic code-point order, modelling `localeCompare`); when every
registered literal path and mount prefix starts with `/`, every emitted
fullPath starts with `/`.  Duplicate (method, fullPath) pairs are preserved,
not removed. -/
theorem claim_C6_amended :
    ∀ (fuel : Nat) (inp : AnalyzeInput) (rs : List RouteAnalysis)
      (logs : List (LogLevel × String)),
      analyzeRoutes fuel inp = some (rs, logs) →
      List.Sorted routeRel rs ∧
      ((∀ sf, inp.file = some sf → ∀ cs ∈ sf.sites, siteSlashOk cs = true) →
        ∀ e ∈ rs, strStarts e.path "/" = true) := by
  intro fuel inp rs logs h
  unfold analyzeRoutes at h
  by_cases hentry : inp.entryExists = false
  · rw [if_pos hentry] at h
    have h2 := Option.some_inj.mp h
    rw [Prod.mk.injEq] at h2
    obtain ⟨h3, _⟩ := h2
    subst h3
    exact ⟨List.sorted_nil, fun _ e he => absurd he (List.not_mem_nil e)⟩
  · rw [if_neg hentry] at h
    cases hf : inp.file with
    | none =>
      rw [hf] at h
      have h2 := Option.some_inj.mp h
      rw [Prod.mk.injEq] at h2
      obtain ⟨h3, _⟩ := h2
      subst h3
      exact ⟨List.sorted_nil, fun _ e he => absurd he (List.not_mem_nil e)⟩
    | some sf =>
      rw [hf] at h
      have hh : (match rootRouterName sf with
        | none => some (([] : List RouteAnalysis), ([] : List (LogLevel × String)))
        | some root =>
          match walkFuel inp.checker sf.sites fuel root "" with
          | none => none
          | some es => some (sortRoutes es, [])) = some (rs, logs) := h
      cases hroot : rootRouterName sf with
      | none =>
        rw [hroot] at hh
        have h2 := Option.some_inj.mp hh
        rw [Prod.mk.injEq] at h2
        obtain ⟨h3, _⟩ := h2
        subst h3
        exact ⟨List.sorted_nil, fun _ e he => absurd he (List.not_mem_nil e)⟩
      | some root =>
        rw [hroot] at hh
        have hh2 : (match walkFuel inp.checker sf.sites fuel root "" with
          | none => none
          | some es => some (sortRoutes es, [])) = some (rs, logs) := hh
        cases hw : walkFuel inp.checker sf.sites fuel root "" with
        | none => rw [hw] at hh2; exact absurd hh2 (by simp)
        | some es =>
          rw [hw] at hh2
          have h2 := Option.some_inj.mp hh2
          rw [Prod.mk.injEq] at h2
          obtain ⟨h3, _⟩ := h2
          subst h3
          constructor
          · exact sorted_sortRoutes es
          · intro hsl e he
            have he2 := mem_sortRoutes.mp he
            exact walkFuel_slash inp.checker sf.sites (hsl sf rfl) fuel root "" es
              (Or.inl rfl) hw e he2

/-- Concrete instantiation of the amended C6 theorem at the `/admin/dash`
program. -/
theorem claim_C6_amended_witness :
    List.Sorted routeRel [(⟨"GET", "/admin/dash", .STATIC, none⟩ : RouteAnalysis)] ∧
    ((∀ sf, adminInput.file = some sf → ∀ cs ∈ sf.sites, siteSlashOk cs = true) →
      ∀ e ∈ [(⟨"GET", "/admin/dash", .STATIC, none⟩ : RouteAnalysis)],
        strStarts e.path "/" = true) :=
  claim_C6_amended 10 adminInput [⟨"GET", "/admin/dash", .STATIC, none⟩] [] rfl

/-- Claim C7, counterexample: a load failure is caught inside the analyzer
itself, which returns an ordinary `.ok` empty report with an error-level log
line — nothing is propagated to the caller, even though the walk would have
produced entries. -/
theorem claim_C7_counterexample :
    TM.analyzeRoutes tmFailInput = .ok ([], [(.logError, TM.loadErrorMsg)]) ∧
    tmFailInput.walkResult ≠ [] :=
  ⟨rfl, by simp [tmFailInput]⟩

/-- Claim C7 (amended): when the entry file exists but source loading
fails, the analyzer catches the failure, logs an error and returns an empty
report as a normal, non-exceptional result. -/
theorem claim_C7_amended :
    ∀ (inp : TM.Input) (e : String), inp.entryExists = true → inp.load = .error e →
      TM.analyzeRoutes inp = .ok ([], [(.logError, TM.loadErrorMsg)]) := by
  intro inp e hentry hload
  simp [TM.analyzeRoutes, hentry, hload]

/-- Concrete instantiation of the amended C7 theorem at a failing load. -/
theorem claim_C7_amended_witness :
    TM.analyzeRoutes ⟨true, .error "boom", []⟩ = .ok ([], [(.logError, TM.loadErrorMsg)]) :=
  claim_C7_amended ⟨true, .error "boom", []⟩ "boom" rfl rfl

/-- Claim C8: when the entry file is absent the analyzer returns an empty
report together with a single warning-level log line and no error. -/
theorem claim_C8 :
    ∀ (fuel : Nat) (inp : AnalyzeInput), inp.entryExists = false →
      analyzeRoutes fuel inp = some ([], [(.warn, analyzeWarnMsg)]) := by
  intro fuel inp h
  simp [analyzeRoutes, h]

/-- Concrete instantiation of the C8 theorem. -/
theorem claim_C8_witness :
    analyzeRoutes 3 ⟨false, none, ckEmpty⟩ = some ([], [(.warn, analyzeWarnMsg)]) :=
  claim_C8 3 ⟨false, none, ckEmpty⟩ rfl

/-- Claim C9: for a parameter-free registration that the walk emits, the
entry is STATIC iff every handler argument is classified static; when some
handler is dynamic, the first dynamic one in argument order determines the
reason, which is qualified as "Middleware [Arg i] is dynamic: ..." exactly
when that handler is not the terminal (last) argument. -/
theorem claim_C9 :
    ∀ (ck : Checker) (fuel : Nat) (pre m p : String) (hs : List Expr) (entry : RouteAnalysis),
      (strIncludes (collapseStr (pre ++ p)) ":" ||
       strIncludes (collapseStr (pre ++ p)) "*") = false →
      routeEntriesFor ck fuel pre m (.strLit p :: hs) = some [entry] →
      ((entry.type = .STATIC ↔ ∀ h ∈ hs, staticRes ck fuel h) ∧
       (∀ (s : List Expr) (h : Expr) (t : List Expr) (r : HandlerRes),
          hs = s ++ h :: t → (∀ x ∈ s, staticRes ck fuel x) →
          analyzeHandler ck fuel h = some r → r.isStatic = false →
          entry.type = .DYNAMIC ∧
          (t = [] → entry.reason = some (r.reason.getD "Unknown")) ∧
          (t ≠ [] → entry.reason = some ("Middleware [Arg " ++ toString (s.length + 1) ++
            "] is dynamic: " ++ r.reason.getD "undefined")))) := by
  intro ck fuel pre m p hs entry hmk heq
  rw [routeEntriesFor_noMarkers ck fuel pre m p hs hmk] at heq
  cases hcl : classifyHandlers ck fuel (hs.length + 1) 1 hs with
  | none => rw [hcl] at heq; exact absurd heq (by simp)
  | some o =>
    cases o with
    | none =>
      rw [hcl] at heq
      have heq2 : some ([⟨toUpperStr m, collapseStr (pre ++ p), RouteType.STATIC, none⟩] :
          List RouteAnalysis) = some [entry] := heq
      have he := Option.some_inj.mp heq2
      injection he with he2 _
      subst he2
      constructor
      · constructor
        · intro _
          exact all_static_of_classify ck fuel (hs.length + 1) hs 1 hcl
        · intro _
          rfl
      · intro s h t r hsplit hall hah hdyn
        exfalso
        have hcd := classify_first_dynamic ck fuel (hs.length + 1) s h t r 1 hall hah hdyn
        rw [← hsplit, hcl] at hcd
        exact absurd hcd (by simp)
    | some r0 =>
      rw [hcl] at heq
      have heq2 : some ([⟨toUpperStr m, collapseStr (pre ++ p), RouteType.DYNAMIC, some r0⟩] :
          List RouteAnalysis) = some [entry] := heq
      have he := Option.some_inj.mp heq2
      injection he with he2 _
      subst he2
      constructor
      · constructor
        · intro hty
          exact absurd hty (by simp)
        · intro hall
          have hc2 := classify_of_all_static ck fuel (hs.length + 1) hs 1 hall
          rw [hcl] at hc2
          exact absurd hc2 (by simp)
      · intro s h t r hsplit hall hah hdyn
        have hcd := classify_first_dynamic ck fuel (hs.length + 1) s h t r 1 hall hah hdyn
        rw [← hsplit, hcl] at hcd
        have hr0 : r0 =
            (if 1 + s.length < hs.length + 1 - 1 then
              "Middleware [Arg " ++ toString (1 + s.length) ++ "] is dynamic: " ++
                r.reason.getD "undefined"
            else r.reason.getD "Unknown") :=
          Option.some_inj.mp (Option.some_inj.mp hcd)
        refine ⟨rfl, ?_, ?_⟩
        · intro ht
          subst ht
          have hlen : hs.length = s.length + 1 := by rw [hsplit, List.length_append, List.length_cons, List.length_nil]
          show some r0 = some (r.reason.getD "Unknown")
          rw [hr0, if_neg (by omega)]
        · intro ht
          have htl : 0 < t.length := List.length_pos.mpr ht
          have hlen : hs.length = s.length + 1 + t.length := by rw [hsplit, List.length_append, List.length_cons]; omega
          show some r0 = some ("Middleware [Arg " ++ toString (s.length + 1) ++
            "] is dynamic: " ++ r.reason.getD "undefined")
          rw [hr0, if_pos (by omega)]
          have hco : 1 + s.length = s.length + 1 := Nat.add_comm 1 s.length
          rw [hco]

/-- Concrete instantiation of the C9 theorem at a dynamic middleware
followed by a static terminal handler. -/
theorem claim_C9_witness :
    ((chainEntry.type = .STATIC ↔
        ∀ h ∈ [mwNext, arrowCJsonEmptyObj], staticRes ckEmpty 5 h) ∧
     (∀ (s : List Expr) (h : Expr) (t : List Expr) (r : HandlerRes),
        [mwNext, arrowCJsonEmptyObj] = s ++ h :: t → (∀ x ∈ s, staticRes ckEmpty 5 x) →
        analyzeHandler ckEmpty 5 h = some r → r.isStatic = false →
        chainEntry.type = .DYNAMIC ∧
        (t = [] → chainEntry.reason = some (r.reason.getD "Unknown")) ∧
        (t ≠ [] → chainEntry.reason = some ("Middleware [Arg " ++ toString (s.length + 1) ++
          "] is dynamic: " ++ r.reason.getD "undefined")))) :=
  claim_C9 ckEmpty 5 "" "get" "/chain" [mwNext, arrowCJsonEmptyObj] chainEntry rfl rfl

/-- Claim C10: a registration whose path argument is not a string literal
emits no entry at all, and a program containing such a registration next to
a literal one reports only the literal route. -/
theorem claim_C10 :
    (∀ (ck : Checker) (fuel : Nat) (pre m : String) (p : Expr) (hs : List Expr),
      isStrLitB p = false → routeEntriesFor ck fuel pre m (p :: hs) = some []) ∧
    analyzeRoutes 10 tmplInput = some ([⟨"GET", "/lit", .STATIC, none⟩], []) := by
  constructor
  · intro ck fuel pre m p hs hp
    cases p with
    | strLit s => exact absurd hp (by simp [isStrLitB])
    | numLit t => rfl
    | boolLit b => rfl
    | nullLit => rfl
    | tmplNoSub s => rfl
    | tmplInterp h ps => rfl
    | arrayLit es => rfl
    | objLit ps => rfl
    | ident n => rfl
    | propAccess b n => rfl
    | call f args => rfl
    | fn ps body => rfl
  · rfl

/-- Concrete instantiation of the C10 theorem at a template-literal path. -/
theorem claim_C10_witness :
    routeEntriesFor ckEmpty 3 "" "get" (Expr.tmplInterp "p" [] :: []) = some [] :=
  (claim_C10.1 ckEmpty 3 "" "get" (.tmplInterp "p" []) [] rfl)

